import Mathlib

set_option autoImplicit false

/-!
Verification of the BayesFlow trainer (`bayesflow/trainers.py`) and of the
affine coupling layer contract stated in the design document and exercised by
`tests/test_coupling_networks.py`.

The first part embeds the affine coupling layer.  The layer implementation
itself (`bayesflow/coupling_networks.py`) is not among the sources, so the
layer is modelled from the spec (section 4.1): a partition-based affine
transform `x2 ⊙ exp(s) + t` with the scale and translation sub-networks read
from the untouched half, plus optional permutation and activation-normalization
sub-layers, each independently invertible, each contributing its own
log-det-Jacobian term.  Real vectors are lists of reals; sub-networks are
arbitrary functions of the untouched half and the optional condition.
-/

namespace BayesFlow

/-- Modelled from the spec: the activation-normalization sub-layer, a learned
per-channel affine whitening `z_i = scale_i * x_i + bias_i`
(`bayesflow.coupling_networks.ActNorm` is not among the sources). -/
structure ActNorm where
  scale : List ℝ
  bias : List ℝ

/-- Forward pass of activation normalization together with its
log-det-Jacobian contribution, the sum of the logs of the absolute scales. -/
noncomputable def actNormFwd (an : ActNorm) (x : List ℝ) : List ℝ × ℝ :=
  (List.zipWith (· + ·) (List.zipWith (· * ·) an.scale x) an.bias,
   (an.scale.map (fun a => Real.log |a|)).sum)

/-- Inverse pass of activation normalization: `x_i = (z_i - bias_i) / scale_i`. -/
noncomputable def actNormInv (an : ActNorm) (z : List ℝ) : List ℝ :=
  List.zipWith (· / ·) (List.zipWith (· - ·) z an.bias) an.scale

/-- Modelled from the spec: applying a fixed permutation of the `D`
dimensions to a vector. -/
noncomputable def applyPerm {D : ℕ} (σ : Equiv.Perm (Fin D)) (x : List ℝ) : List ℝ :=
  List.ofFn (fun i => x.getD (σ i) 0)

/-- Modelled from the spec: the affine coupling layer.  It holds the declared
dimensionality `n_params`, the scale and translation sub-networks (arbitrary
functions of the untouched half and the optional condition vector), and the
optional permutation and activation-normalization sub-layers
(`bayesflow.coupling_networks.AffineCouplingLayer` is not among the sources). -/
structure AffineCouplingLayer where
  n_params : ℕ
  netS : List ℝ → Option (List ℝ) → List ℝ
  netT : List ℝ → Option (List ℝ) → List ℝ
  permutation : Option (Equiv.Perm (Fin n_params))
  act_norm : Option ActNorm

/-- Size of the untouched half of the partition. -/
def splitIdx (L : AffineCouplingLayer) : ℕ := L.n_params / 2

/-- Forward pass of the affine coupling core: split `x` into `x1, x2`,
compute `s = netS(x1, cond)` and `t = netT(x1, cond)`, output
`x1 ++ (x2 ⊙ exp s + t)` and the log-det-Jacobian `sum s`. -/
noncomputable def couplingFwd (L : AffineCouplingLayer) (x : List ℝ)
    (cond : Option (List ℝ)) : List ℝ × ℝ :=
  let x1 := x.take (splitIdx L)
  let x2 := x.drop (splitIdx L)
  let s := L.netS x1 cond
  let t := L.netT x1 cond
  (x1 ++ List.zipWith (· + ·) (List.zipWith (fun xi si => xi * Real.exp si) x2 s) t,
   s.sum)

/-- Inverse pass of the affine coupling core: recover
`x2 = (z2 - t) ⊙ exp (-s)` with `s, t` recomputed from the untouched half. -/
noncomputable def couplingInv (L : AffineCouplingLayer) (z : List ℝ)
    (cond : Option (List ℝ)) : List ℝ :=
  let z1 := z.take (splitIdx L)
  let z2 := z.drop (splitIdx L)
  let s := L.netS z1 cond
  let t := L.netT z1 cond
  z1 ++ List.zipWith (fun yi si => yi * Real.exp (-si)) (List.zipWith (· - ·) z2 t) s

/-- Full forward pass of the layer: optional activation normalization, then
optional permutation, then the affine coupling core; the log-det-Jacobian
terms of the stages are summed. -/
noncomputable def layerFwd (L : AffineCouplingLayer) (x : List ℝ)
    (cond : Option (List ℝ)) : List ℝ × ℝ :=
  let p1 : List ℝ × ℝ :=
    match L.act_norm with
    | none => (x, 0)
    | some an => actNormFwd an x
  let y : List ℝ :=
    match L.permutation with
    | none => p1.1
    | some σ => applyPerm σ p1.1
  let p2 := couplingFwd L y cond
  (p2.1, p1.2 + p2.2)

/-- Full inverse pass of the layer: invert the coupling core, then the
permutation, then the activation normalization. -/
noncomputable def layerInv (L : AffineCouplingLayer) (z : List ℝ)
    (cond : Option (List ℝ)) : List ℝ :=
  let y2 := couplingInv L z cond
  let y1 :=
    match L.permutation with
    | none => y2
    | some σ => applyPerm σ⁻¹ y2
  match L.act_norm with
  | none => y1
  | some an => actNormInv an y1

/-- Well-formedness of a layer: the sub-networks produce vectors of the size
of the transformed half, and the activation-normalization scales are nonzero
vectors of the declared dimensionality. -/
def WellFormed (L : AffineCouplingLayer) : Prop :=
  (∀ x1 c, (L.netS x1 c).length = L.n_params - splitIdx L) ∧
  (∀ x1 c, (L.netT x1 c).length = L.n_params - splitIdx L) ∧
  (∀ an ∈ L.act_norm,
    an.scale.length = L.n_params ∧ an.bias.length = L.n_params ∧
    ∀ a ∈ an.scale, a ≠ 0)

/-- Batched forward pass: the transform is mapped over the rows of the batch,
pairing row `i` of the input with row `i` of the condition when a condition
is present; the first component collects the transformed rows, the second
the per-sample log-det-Jacobians. -/
noncomputable def layerFwdBatch (L : AffineCouplingLayer) (xs : List (List ℝ))
    (cond : Option (List (List ℝ))) : List (List ℝ) × List ℝ :=
  match cond with
  | none =>
    (xs.map (fun x => (layerFwd L x none).1), xs.map (fun x => (layerFwd L x none).2))
  | some cs =>
    ((xs.zip cs).map (fun p => (layerFwd L p.1 (some p.2)).1),
     (xs.zip cs).map (fun p => (layerFwd L p.1 (some p.2)).2))

/-- Batched inverse pass, mapped over rows in the same fashion. -/
noncomputable def layerInvBatch (L : AffineCouplingLayer) (zs : List (List ℝ))
    (cond : Option (List (List ℝ))) : List (List ℝ) :=
  match cond with
  | none => zs.map (fun z => layerInv L z none)
  | some cs => (zs.zip cs).map (fun p => layerInv L p.1 (some p.2))

/-- Modelled from the spec: the settings that the layer constructor receives
(the relevant entries of the meta dictionary built by `build_meta_dict`). -/
structure CouplingSettings where
  n_params : ℕ
  use_permutation : Bool
  use_act_norm : Bool

/-- Modelled from the spec: the layer constructor; the permutation and the
activation-normalization sub-layers are attached exactly when the
corresponding flags are set, initialized from the given initial values. -/
def mkAffineCouplingLayer (meta : CouplingSettings)
    (netS netT : List ℝ → Option (List ℝ) → List ℝ)
    (initPerm : Equiv.Perm (Fin meta.n_params)) (initAct : ActNorm) :
    AffineCouplingLayer :=
  { n_params := meta.n_params
    netS := netS
    netT := netT
    permutation := if meta.use_permutation then some initPerm else none
    act_norm := if meta.use_act_norm then some initAct else none }

/-- Concrete two-dimensional layer used to instantiate the coupling-layer
theorems: constant sub-networks, identity permutation, unit activation
normalization. -/
noncomputable def exampleLayer : AffineCouplingLayer :=
  { n_params := 2
    netS := fun _ _ => [(0 : ℝ)]
    netT := fun _ _ => [(0 : ℝ)]
    permutation := some (Equiv.refl (Fin 2))
    act_norm := some ⟨[(1 : ℝ), 1], [(0 : ℝ), 0]⟩ }

/-!
The second part embeds the trainer (`bayesflow/trainers.py`).  The outputs of
a generative model are dictionaries mapping string keys to optional arrays
(an array is a list of samples over an abstract sample type); exceptions are
modelled by `Except`, with a dedicated error type distinguishing
`SimulationError`, `ConfigurationError` and `NotImplementedError` from other
exceptions.
-/

/-- Exceptions raised by the trainer: the dedicated `SimulationError`, the
wrapping `ConfigurationError`, `NotImplementedError` from configurator
management, and any other propagated exception. -/
inductive TrainerError where
  | simulationError (msg : String)
  | configurationError (msg : String)
  | notImplementedError (msg : String)
  | otherError (msg : String)
deriving DecidableEq

/-- Dictionary produced by a generative model: ordered key-value pairs whose
values are optional arrays of samples. -/
abbrev SimDict (α : Type) := List (String × Option (List α))

/-- Exact dynamic type of the amortizer, as tested by `type(...) is ...` in
`Trainer._manage_configurator`. -/
inductive AmortizerKind where
  | amortizedPosterior
  | amortizedLikelihood
  | jointAmortizer
  | unknownKind
deriving DecidableEq

/-- The amortizer: its dynamic type plus its (possibly failing) loss
computation on configured inputs. -/
structure Amortizer (β : Type) where
  kind : AmortizerKind
  computeLoss : β → Except String ℚ

/-- The `configurator` argument of the `Trainer` constructor: a callable, a
string, `None`, or a value of any other type. -/
inductive ConfigArg (α β : Type) where
  | callableArg (f : SimDict α → Except String β)
  | strArg (s : String)
  | noneArg
  | otherArg

/-- Transformer selected by the configurator string dispatch. -/
inductive TransformChoice where
  | variableNumObs
  | oneHot
  | variableNumObsOneHot
  | oneHotVariableNumObs
  | defaultTransform
deriving DecidableEq

/-- The supported configurator strings (`bayesflow.default_settings.STRING_CONFIGS`). -/
def STRING_CONFIGS : List String :=
  ["variable_num_obs", "one_hot", "variable_num_obs_one_hot", "one_hot_variable_num_obs"]

/-- Embedding of `Trainer._manage_configurator`: a callable is returned
unchanged; otherwise the amortizer type is dispatched first (an unknown type
raises `NotImplementedError`), then a string argument selects one of the four
supported transformers (anything else raises `NotImplementedError`), `None`
selects the default transformer, and any other type raises
`NotImplementedError`.  The default configurators built from
`bayesflow.configuration` classes are not among the sources and are modelled
from the spec as an abstract factory `defaults` from amortizer kind and
transformer choice to a configurator function. -/
def manageConfigurator {α β : Type}
    (defaults : AmortizerKind → TransformChoice → (SimDict α → Except String β))
    (amKind : AmortizerKind) (configFun : ConfigArg α β) :
    Except TrainerError (SimDict α → Except String β) :=
  match configFun with
  | .callableArg f => .ok f
  | cf =>
    if amKind = .unknownKind then
      .error (.notImplementedError
        "Could not initialize configurator based on amortizer type!")
    else
      match cf with
      | .strArg s =>
        if s = "variable_num_obs" then .ok (defaults amKind .variableNumObs)
        else if s = "one_hot" then .ok (defaults amKind .oneHot)
        else if s = "variable_num_obs_one_hot" then
          .ok (defaults amKind .variableNumObsOneHot)
        else if s = "one_hot_variable_num_obs" then
          .ok (defaults amKind .oneHotVariableNumObs)
        else .error (.notImplementedError
          "Could not initialize configurator based on string argument should be in STRING_CONFIGS")
      | .noneArg => .ok (defaults amKind .defaultTransform)
      | _ => .error (.notImplementedError
          "Could not infer configurator based on provided type")

/-- Context text prepended by `Trainer._check_consistency` when wrapping the
underlying exception. -/
def consistencyContext : String :=
  "Could not carry out computations of generative_model ->configurator -> amortizer -> loss! Error trace:\n "

/-- Embedding of `Trainer._check_consistency`: with a generative model
present, run one step `generative_model -> configurator -> amortizer -> loss`
on two simulations; any exception is re-raised as a `ConfigurationError`
whose message appends the original error text to the context. -/
def checkConsistency {α β : Type}
    (gm : Option (ℕ → Except String (SimDict α)))
    (conf : SimDict α → Except String β) (loss : β → Except String ℚ) :
    Except TrainerError Unit :=
  match gm with
  | none => .ok ()
  | some g =>
    match (do
      let d ← g 2
      let inp ← conf d
      let _ ← loss inp
      pure () : Except String Unit) with
    | .ok _ => .ok ()
    | .error err => .error (.configurationError (consistencyContext ++ err))

/-- State of a constructed trainer: the amortizer, the optional generative
model, and the resolved configurator. -/
structure TrainerState (α β : Type) where
  amortizer : Amortizer β
  generative_model : Option (ℕ → Except String (SimDict α))
  configurator : SimDict α → Except String β

/-- Embedding of `Trainer.__init__`: resolve the configurator (which may
raise `NotImplementedError`), then, unless `skip_checks` is set, run the
consistency check (which may raise `ConfigurationError`); only then is a
trainer obtained. -/
def mkTrainer {α β : Type} (amortizer : Amortizer β)
    (generative_model : Option (ℕ → Except String (SimDict α)))
    (configurator : ConfigArg α β)
    (defaults : AmortizerKind → TransformChoice → (SimDict α → Except String β))
    (skip_checks : Bool) : Except TrainerError (TrainerState α β) := do
  let conf ← manageConfigurator defaults amortizer.kind configurator
  let tr : TrainerState α β := ⟨amortizer, generative_model, conf⟩
  if skip_checks then
    pure tr
  else do
    let _ ← checkConsistency generative_model conf amortizer.computeLoss
    pure tr

/-- Message of the dedicated simulation error. -/
def simulationMsg : String :=
  "No generative model specified. Only offline learning is available!"

/-- Embedding of `Trainer._forward_inference`: with no generative model, the
dedicated `SimulationError` is raised and nothing is simulated; otherwise the
generative model is invoked. -/
def forwardInference {α β : Type} (tr : TrainerState α β) (n_sim : ℕ) :
    Except TrainerError (SimDict α) :=
  match tr.generative_model with
  | none => .error (.simulationError simulationMsg)
  | some g => (g n_sim).mapError .otherError

/-- Embedding of `Trainer._train_step`: simulate a forward dictionary only
when none is supplied, then configure it and compute the loss. -/
def trainStep {α β : Type} (tr : TrainerState α β) (batch_size : ℕ)
    (forward_dict : Option (SimDict α)) : Except TrainerError ℚ := do
  let fd ← match forward_dict with
    | none => forwardInference tr batch_size
    | some d => pure d
  let input_dict ← (tr.configurator fd).mapError TrainerError.otherError
  (tr.amortizer.computeLoss input_dict).mapError TrainerError.otherError

/-- Embedding of `Trainer.train_online`: every iteration of every epoch runs
a training step with no forward dictionary, so each step simulates. -/
def trainOnline {α β : Type} (tr : TrainerState α β)
    (epochs iterations_per_epoch batch_size : ℕ) :
    Except TrainerError (List ℚ) :=
  (List.range (epochs * iterations_per_epoch)).mapM
    (fun _ => trainStep tr batch_size none)

/-- Modelled from the spec: the number of simulations held by a dictionary
(`bayesflow.helper_classes.SimulatedDataset` is not among the sources). -/
def nSimOf {α : Type} (d : SimDict α) : ℕ :=
  (d.map (fun kv => (kv.2.map List.length).getD 0)).foldr max 0

/-- Modelled from the spec: one batch of the dataset, the given slice of
every present array (`SimulatedDataset` is not among the sources). -/
def sliceDict {α : Type} (d : SimDict α) (lo len : ℕ) : SimDict α :=
  d.map (fun kv => (kv.1, kv.2.map (fun l => (l.drop lo).take len)))

/-- Modelled from the spec: the dataset split into batches of `batch_size`
(`SimulatedDataset` is not among the sources). -/
def makeBatches {α : Type} (d : SimDict α) (batch_size : ℕ) : List (SimDict α) :=
  (List.range ((nSimOf d + batch_size - 1) / batch_size)).map
    (fun i => sliceDict d (i * batch_size) batch_size)

/-- Embedding of `Trainer.train_offline`: every epoch iterates over the
batches of the pre-simulated dataset, passing each batch as the forward
dictionary of a training step. -/
def trainOffline {α β : Type} (tr : TrainerState α β)
    (simulations_dict : SimDict α) (epochs batch_size : ℕ) :
    Except TrainerError (List ℚ) :=
  ((List.range epochs).flatMap (fun _ => makeBatches simulations_dict batch_size)).mapM
    (fun b => trainStep tr batch_size (some b))

/-- Embedding of the concatenation loop of `Trainer.train_rounds`: every key
of the accumulated dictionary whose value is present is extended with the
value simulated for that key in the new dictionary (missing keys or a `None`
value in the new dictionary make `np.concatenate` fail, modelled by `none`);
keys holding `None` keep `None`, the newly simulated value is dropped. -/
def concatRound {α : Type} : SimDict α → SimDict α → Option (SimDict α)
  | [], _ => some []
  | (k, none) :: rest, new =>
    (concatRound rest new).map (fun d => (k, none) :: d)
  | (k, some l) :: rest, new =>
    match new.lookup k with
    | some (some l2) => (concatRound rest new).map (fun d => (k, some (l ++ l2)) :: d)
    | _ => none

/-- Data accumulated by `Trainer.train_rounds` at the start of (0-indexed)
round `r`: the stream `gm` gives the dictionary returned by the generative
model on its successive calls; round `0` keeps the initial simulation, each
later round concatenates the new simulation onto the accumulated one. -/
def accumDict {α : Type} (gm : ℕ → SimDict α) : ℕ → Option (SimDict α)
  | 0 => some (gm 0)
  | r + 1 => (accumDict gm r).bind (fun d => concatRound d (gm (r + 1)))

/-- The sequence of dictionaries that `Trainer.train_rounds` hands to
`train_offline`, one per round. -/
def trainRoundsCalls {α : Type} (gm : ℕ → SimDict α) (rounds : ℕ) :
    List (Option (SimDict α)) :=
  (List.range rounds).map (accumDict gm)

/-- The array held by a dictionary under key `k`, empty when the key is
absent or holds `None`. -/
def lookupArr {α : Type} (d : SimDict α) (k : String) : List α :=
  match d.lookup k with
  | some (some l) => l
  | _ => []

/-- The array simulated for key `k` in the (0-indexed) round `i`. -/
def batchOf {α : Type} (gm : ℕ → SimDict α) (i : ℕ) (k : String) : List α :=
  lookupArr (gm i) k

/-- Concatenation of the arrays simulated for key `k` in rounds `0..r`. -/
def joinedBatches {α : Type} (gm : ℕ → SimDict α) (r : ℕ) (k : String) : List α :=
  ((List.range (r + 1)).map (fun i => batchOf gm i k)).flatten

/-- Explicit description of the accumulated dictionary at round `r`: the
initial dictionary with every present value replaced by the concatenation of
all batches for its key. -/
def dictAt {α : Type} (gm : ℕ → SimDict α) (r : ℕ) : SimDict α :=
  (gm 0).map (fun kv => (kv.1, kv.2.map (fun _ => joinedBatches gm r kv.1)))

/-- Embedding of the loop body of `Trainer.train_rounds` after the initial
simulation: train offline on the accumulated data, then simulate and
concatenate for the next round. -/
def trainRoundsAux {α β : Type} (tr : TrainerState α β)
    (sim_per_round epochs batch_size : ℕ) :
    ℕ → SimDict α → Except TrainerError (List (List ℚ))
  | 0, d => do
    let ls ← trainOffline tr d epochs batch_size
    pure [ls]
  | r + 1, d => do
    let ls ← trainOffline tr d epochs batch_size
    let dr ← forwardInference tr sim_per_round
    match concatRound d dr with
    | some d2 => do
      let rest ← trainRoundsAux tr sim_per_round epochs batch_size r d2
      pure (ls :: rest)
    | none => .error (.otherError "could not concatenate data sets")

/-- Embedding of `Trainer.train_rounds`: the first round simulates the
initial data (raising `SimulationError` when there is no generative model),
then the rounds loop trains and grows the dataset. -/
def trainRounds {α β : Type} (tr : TrainerState α β)
    (rounds sim_per_round epochs batch_size : ℕ) :
    Except TrainerError (List (List ℚ)) :=
  match rounds with
  | 0 => pure []
  | r + 1 => do
    let d ← forwardInference tr sim_per_round
    trainRoundsAux tr sim_per_round epochs batch_size r d

/-- Recognizer of a `NotImplementedError` outcome. -/
def isNotImplementedErr {γ : Type} : Except TrainerError γ → Bool
  | .error (.notImplementedError _) => true
  | _ => false

/-- Concrete trainer with no generative model, over natural-number samples
and configured inputs. -/
def exampleTrainerNoModel : TrainerState ℕ ℕ :=
  { amortizer := ⟨.amortizedPosterior, fun _ => .ok 0⟩
    generative_model := none
    configurator := fun _ => .ok 0 }

/-- Stability of the generative-model output across calls: every call yields
the same key set and the same pattern of `None` values as the first call. -/
def StableKeys {α : Type} (gm : ℕ → SimDict α) : Prop :=
  ∀ r k, ((gm r).lookup k).isSome = ((gm 0).lookup k).isSome ∧
    ((gm r).lookup k = some none ↔ (gm 0).lookup k = some none)

/-- Concrete stream of generative-model outputs used to instantiate the
round-based training theorems: one present key and one `None` key. -/
def exampleStream : ℕ → SimDict ℕ := fun r => [("a", some [r]), ("b", none)]

/-- The dictionary accumulated by the concrete stream after two rounds. -/
def exampleDict1 : SimDict ℕ := [("a", some [0, 1]), ("b", none)]

lemma affine_zip_leftInv (x2 s t : List ℝ) (hs : s.length = x2.length)
    (ht : t.length = x2.length) :
    List.zipWith (fun yi si => yi * Real.exp (-si))
      (List.zipWith (· - ·)
        (List.zipWith (· + ·) (List.zipWith (fun xi si => xi * Real.exp si) x2 s) t) t) s
      = x2 := by
  induction x2 generalizing s t with
  | nil => simp
  | cons a x ih =>
    cases s with
    | nil => simp at hs
    | cons b s =>
      cases t with
      | nil => simp at ht
      | cons c t =>
        simp only [List.zipWith_cons_cons]
        rw [ih s t (by simpa using hs) (by simpa using ht)]
        congr 1
        rw [add_sub_cancel_right, mul_assoc, ← Real.exp_add, add_neg_cancel,
          Real.exp_zero, mul_one]

lemma actNorm_zip_leftInv (a b x : List ℝ) (ha : a.length = x.length)
    (hb : b.length = x.length) (hnz : ∀ ai ∈ a, ai ≠ 0) :
    List.zipWith (· / ·)
      (List.zipWith (· - ·)
        (List.zipWith (· + ·) (List.zipWith (· * ·) a x) b) b) a = x := by
  induction x generalizing a b with
  | nil => simp
  | cons v x ih =>
    cases a with
    | nil => simp at ha
    | cons av a =>
      cases b with
      | nil => simp at hb
      | cons bv b =>
        simp only [List.zipWith_cons_cons]
        rw [ih a b (by simpa using ha) (by simpa using hb)
          (fun ai hai => hnz ai (List.mem_cons_of_mem _ hai))]
        congr 1
        rw [add_sub_cancel_right, mul_div_cancel_left₀ _ (hnz av (List.mem_cons_self _ _))]

lemma actNormInv_fwd (an : ActNorm) (x : List ℝ) (ha : an.scale.length = x.length)
    (hb : an.bias.length = x.length) (hnz : ∀ ai ∈ an.scale, ai ≠ 0) :
    actNormInv an (actNormFwd an x).1 = x :=
  actNorm_zip_leftInv an.scale an.bias x ha hb hnz

lemma actNormFwd_fst_length (an : ActNorm) (x : List ℝ)
    (ha : an.scale.length = x.length) (hb : an.bias.length = x.length) :
    (actNormFwd an x).1.length = x.length := by
  simp [actNormFwd, ha, hb]

lemma applyPerm_length {D : ℕ} (σ : Equiv.Perm (Fin D)) (x : List ℝ) :
    (applyPerm σ x).length = D :=
  List.length_ofFn _

lemma applyPerm_leftInv {D : ℕ} (σ : Equiv.Perm (Fin D)) (x : List ℝ)
    (hx : x.length = D) : applyPerm σ⁻¹ (applyPerm σ x) = x := by
  subst hx
  unfold applyPerm
  apply List.ext_getElem (by simp)
  intro i h1 h2
  simp only [List.getElem_ofFn]
  rw [List.getD_eq_getElem _ _ (by simp)]
  simp only [List.getElem_ofFn, Fin.eta, Equiv.Perm.apply_inv_self]
  rw [List.getD_eq_getElem _ _ h2]

lemma couplingFwd_fst_length (L : AffineCouplingLayer) (x : List ℝ)
    (cond : Option (List ℝ))
    (hs : ∀ x1 c, (L.netS x1 c).length = L.n_params - splitIdx L)
    (ht : ∀ x1 c, (L.netT x1 c).length = L.n_params - splitIdx L)
    (hx : x.length = L.n_params) :
    (couplingFwd L x cond).1.length = L.n_params := by
  have hsplit : splitIdx L ≤ L.n_params := Nat.div_le_self _ _
  simp [couplingFwd, hs, ht, hx]
  omega

lemma couplingInv_fwd (L : AffineCouplingLayer) (x : List ℝ)
    (cond : Option (List ℝ))
    (hs : ∀ x1 c, (L.netS x1 c).length = L.n_params - splitIdx L)
    (ht : ∀ x1 c, (L.netT x1 c).length = L.n_params - splitIdx L)
    (hx : x.length = L.n_params) :
    couplingInv L (couplingFwd L x cond).1 cond = x := by
  have hx1 : (x.take (splitIdx L)).length = splitIdx L := by
    have hsplit : splitIdx L ≤ L.n_params := Nat.div_le_self _ _
    simp [List.length_take]
    omega
  have hx2 : (x.drop (splitIdx L)).length = L.n_params - splitIdx L := by
    simp [List.length_drop, hx]
  unfold couplingFwd couplingInv
  simp only
  rw [List.take_left' hx1, List.drop_left' hx1]
  rw [affine_zip_leftInv _ _ _ (by rw [hs, hx2]) (by rw [ht, hx2])]
  exact List.take_append_drop _ _

lemma layerFwd_fst_length (L : AffineCouplingLayer) (hWF : WellFormed L)
    (x : List ℝ) (cond : Option (List ℝ)) (hx : x.length = L.n_params) :
    (layerFwd L x cond).1.length = L.n_params := by
  obtain ⟨hs, ht, hact⟩ := hWF
  cases hA : L.act_norm with
  | none =>
    cases hP : L.permutation with
    | none =>
      simp only [layerFwd, hA, hP]
      exact couplingFwd_fst_length L x cond hs ht hx
    | some σ =>
      simp only [layerFwd, hA, hP]
      exact couplingFwd_fst_length L _ cond hs ht (applyPerm_length σ x)
  | some an =>
    obtain ⟨ha, hb, hnz⟩ := hact an (by simp [hA])
    have hlen : (actNormFwd an x).1.length = L.n_params := by
      rw [actNormFwd_fst_length an x (by rw [ha, hx]) (by rw [hb, hx]), hx]
    cases hP : L.permutation with
    | none =>
      simp only [layerFwd, hA, hP]
      exact couplingFwd_fst_length L _ cond hs ht hlen
    | some σ =>
      simp only [layerFwd, hA, hP]
      exact couplingFwd_fst_length L _ cond hs ht (applyPerm_length σ _)

/-- Claim C1: for every input `x` of the declared dimensionality `n_params`
of a well-formed coupling layer and every condition (including none),
applying the forward pass and then the inverse pass with the same condition
recovers `x` exactly (the real-valued idealization of recovery within
floating-point tolerance). -/
theorem coupling_layer_inverse_recovers_input (L : AffineCouplingLayer)
    (hWF : WellFormed L) (x : List ℝ) (cond : Option (List ℝ))
    (hx : x.length = L.n_params) :
    layerInv L (layerFwd L x cond).1 cond = x := by
  obtain ⟨hs, ht, hact⟩ := hWF
  cases hA : L.act_norm with
  | none =>
    cases hP : L.permutation with
    | none =>
      simp only [layerFwd, layerInv, hA, hP]
      exact couplingInv_fwd L x cond hs ht hx
    | some σ =>
      simp only [layerFwd, layerInv, hA, hP]
      rw [couplingInv_fwd L _ cond hs ht (applyPerm_length σ x)]
      exact applyPerm_leftInv σ x hx
  | some an =>
    obtain ⟨ha, hb, hnz⟩ := hact an (by simp [hA])
    have hxa : (actNormFwd an x).1.length = L.n_params := by
      rw [actNormFwd_fst_length an x (by rw [ha, hx]) (by rw [hb, hx]), hx]
    cases hP : L.permutation with
    | none =>
      simp only [layerFwd, layerInv, hA, hP]
      rw [couplingInv_fwd L _ cond hs ht hxa]
      exact actNormInv_fwd an x (by rw [ha, hx]) (by rw [hb, hx]) hnz
    | some σ =>
      simp only [layerFwd, layerInv, hA, hP]
      rw [couplingInv_fwd L _ cond hs ht (applyPerm_length σ _)]
      rw [applyPerm_leftInv σ _ hxa]
      exact actNormInv_fwd an x (by rw [ha, hx]) (by rw [hb, hx]) hnz

/-- Claim C2: for every batched input to the forward pass of a well-formed
layer, the transformed output has exactly the shape of the input (the list of
row lengths is unchanged, so batch size and feature dimension agree), and the
log-det-Jacobian holds exactly one scalar per batch element. -/
theorem coupling_layer_forward_shapes (L : AffineCouplingLayer)
    (hWF : WellFormed L) (xs : List (List ℝ)) (cond : Option (List (List ℝ)))
    (hrows : ∀ x ∈ xs, x.length = L.n_params)
    (hcond : ∀ cs ∈ cond, cs.length = xs.length) :
    (layerFwdBatch L xs cond).1.map List.length = xs.map List.length ∧
    (layerFwdBatch L xs cond).2.length = xs.length := by
  cases cond with
  | none =>
    constructor
    · simp only [layerFwdBatch, List.map_map]
      refine List.map_congr_left (fun x hx => ?_)
      simp only [Function.comp_apply]
      rw [layerFwd_fst_length L hWF x none (hrows x hx), hrows x hx]
    · simp [layerFwdBatch]
  | some cs =>
    have hlen : cs.length = xs.length := hcond cs (by simp)
    have hz : (xs.zip cs).length = xs.length := by
      simp [List.length_zip, hlen]
    simp only [layerFwdBatch]
    constructor
    · apply List.ext_getElem (by simp [hz])
      intro i h1 h2
      have hix : i < xs.length := by simpa using h2
      have hzi : i < (xs.zip cs).length := by rwa [hz]
      simp only [List.getElem_map, List.getElem_zip]
      rw [layerFwd_fst_length L hWF _ _ (hrows _ (List.getElem_mem hix))]
      exact (hrows _ (List.getElem_mem hix)).symm
    · simp [hz]

/-- Claim C8: the batched forward and inverse passes act independently per
sample, for any batch size: the transformed row, the log-det-Jacobian and the
inverse at position `i` depend only on input row `i` and condition row `i`,
so two batches (even of different sizes) that agree at position `i` produce
identical results at position `i`. -/
theorem coupling_layer_per_sample_independence (L : AffineCouplingLayer)
    (xs xs' cs cs' : List (List ℝ)) (i : ℕ)
    (hlen : cs.length = xs.length) (hlen' : cs'.length = xs'.length)
    (hi : i < xs.length) (hi' : i < xs'.length)
    (hx : xs.getD i [] = xs'.getD i []) (hc : cs.getD i [] = cs'.getD i []) :
    (layerFwdBatch L xs (some cs)).1.getD i [] =
      (layerFwdBatch L xs' (some cs')).1.getD i [] ∧
    (layerFwdBatch L xs (some cs)).2.getD i 0 =
      (layerFwdBatch L xs' (some cs')).2.getD i 0 ∧
    (layerInvBatch L xs (some cs)).getD i [] =
      (layerInvBatch L xs' (some cs')).getD i [] := by
  have hz : (xs.zip cs).length = xs.length := by simp [List.length_zip, hlen]
  have hz' : (xs'.zip cs').length = xs'.length := by simp [List.length_zip, hlen']
  have hzi : i < (xs.zip cs).length := by rwa [hz]
  have hzi' : i < (xs'.zip cs').length := by rwa [hz']
  have hxe : xs[i] = xs'[i] := by
    rw [← List.getD_eq_getElem xs [] hi, ← List.getD_eq_getElem xs' [] hi']
    exact hx
  have hic : i < cs.length := by omega
  have hic2 : i < cs'.length := by omega
  have hce : cs[i] = cs'[i] := by
    rw [← List.getD_eq_getElem cs [] hic, ← List.getD_eq_getElem cs' [] hic2]
    exact hc
  refine ⟨?_, ?_, ?_⟩
  · simp only [layerFwdBatch]
    rw [List.getD_eq_getElem _ [] (by simpa using hzi),
      List.getD_eq_getElem _ [] (by simpa using hzi')]
    simp only [List.getElem_map, List.getElem_zip, hxe, hce]
  · simp only [layerFwdBatch]
    rw [List.getD_eq_getElem _ 0 (by simpa using hzi),
      List.getD_eq_getElem _ 0 (by simpa using hzi')]
    simp only [List.getElem_map, List.getElem_zip, hxe, hce]
  · simp only [layerInvBatch]
    rw [List.getD_eq_getElem _ [] (by simpa using hzi),
      List.getD_eq_getElem _ [] (by simpa using hzi')]
    simp only [List.getElem_map, List.getElem_zip, hxe, hce]

lemma exampleLayer_wellFormed : WellFormed exampleLayer := by
  refine ⟨fun x1 c => rfl, fun x1 c => rfl, ?_⟩
  intro an han
  simp only [exampleLayer, Option.mem_def, Option.some_inj] at han
  subst han
  refine ⟨rfl, rfl, ?_⟩
  intro a ha
  simp only [List.mem_cons, List.not_mem_nil, or_false] at ha
  rcases ha with rfl | rfl <;> norm_num

theorem coupling_layer_inverse_recovers_input_witness :
    WellFormed exampleLayer ∧
    ([(5 : ℝ), 7] : List ℝ).length = exampleLayer.n_params ∧
    layerInv exampleLayer (layerFwd exampleLayer [(5 : ℝ), 7] none).1 none =
      [(5 : ℝ), 7] :=
  ⟨exampleLayer_wellFormed, rfl,
    coupling_layer_inverse_recovers_input exampleLayer exampleLayer_wellFormed
      [(5 : ℝ), 7] none rfl⟩

theorem coupling_layer_forward_shapes_witness :
    (layerFwdBatch exampleLayer [[(1 : ℝ), 2], [3, 4]]
        (some [[(0 : ℝ)], [0]])).1.map List.length =
      [[(1 : ℝ), 2], [3, 4]].map List.length ∧
    (layerFwdBatch exampleLayer [[(1 : ℝ), 2], [3, 4]]
        (some [[(0 : ℝ)], [0]])).2.length = 2 :=
  coupling_layer_forward_shapes exampleLayer exampleLayer_wellFormed
    [[(1 : ℝ), 2], [3, 4]] (some [[(0 : ℝ)], [0]])
    (by intro x hx; fin_cases hx <;> rfl)
    (by intro cs hcs; simp only [Option.mem_def, Option.some_inj] at hcs; subst hcs; rfl)

theorem coupling_layer_per_sample_independence_witness :
    ([[(1 : ℝ), 2], [3, 4]] : List (List ℝ)).getD 1 [] =
      ([[(9 : ℝ), 9], [3, 4]] : List (List ℝ)).getD 1 [] ∧
    ((layerFwdBatch exampleLayer [[(1 : ℝ), 2], [3, 4]]
        (some [[(5 : ℝ)], [6]])).1.getD 1 [] =
      (layerFwdBatch exampleLayer [[(9 : ℝ), 9], [3, 4]]
        (some [[(7 : ℝ)], [6]])).1.getD 1 [] ∧
    (layerFwdBatch exampleLayer [[(1 : ℝ), 2], [3, 4]]
        (some [[(5 : ℝ)], [6]])).2.getD 1 0 =
      (layerFwdBatch exampleLayer [[(9 : ℝ), 9], [3, 4]]
        (some [[(7 : ℝ)], [6]])).2.getD 1 0 ∧
    (layerInvBatch exampleLayer [[(1 : ℝ), 2], [3, 4]]
        (some [[(5 : ℝ)], [6]])).getD 1 [] =
      (layerInvBatch exampleLayer [[(9 : ℝ), 9], [3, 4]]
        (some [[(7 : ℝ)], [6]])).getD 1 []) :=
  ⟨rfl,
    coupling_layer_per_sample_independence exampleLayer
      [[(1 : ℝ), 2], [3, 4]] [[(9 : ℝ), 9], [3, 4]]
      [[(5 : ℝ)], [6]] [[(7 : ℝ)], [6]] 1 rfl rfl
      (by simp) (by simp) rfl rfl⟩

/-- Claim C7: constructing the coupling layer with `use_permutation` enabled
yields a non-null `permutation` attribute, and constructing it with
`use_act_norm` enabled yields a non-null `act_norm` attribute. -/
theorem coupling_layer_optional_attributes (n : ℕ) (b1 b2 : Bool)
    (netS netT : List ℝ → Option (List ℝ) → List ℝ)
    (p1 : Equiv.Perm (Fin n)) (a1 : ActNorm)
    (p2 : Equiv.Perm (Fin n)) (a2 : ActNorm) :
    (mkAffineCouplingLayer ⟨n, true, b1⟩ netS netT p1 a1).permutation.isSome = true ∧
    (mkAffineCouplingLayer ⟨n, b2, true⟩ netS netT p2 a2).act_norm.isSome = true := by
  constructor <;> simp [mkAffineCouplingLayer]

lemma mapM_error_of_all {γ δ ε : Type} (l : List γ) (f : γ → Except ε δ) (E : ε)
    (hne : l ≠ []) (herr : ∀ x ∈ l, f x = .error E) : l.mapM f = .error E := by
  cases l with
  | nil => exact absurd rfl hne
  | cons a l =>
    rw [List.mapM_cons, herr a (List.mem_cons_self _ _)]
    rfl

/-- Claim C3: calling `_forward_inference` on a trainer constructed without a
generative model raises the dedicated `SimulationError` with its descriptive
message, directly as well as through a training step, online training and
round-based training; no generative model exists to be invoked. -/
theorem forward_inference_without_model_raises {α β : Type}
    (tr : TrainerState α β) (hgm : tr.generative_model = none)
    (n_sim batch_size epochs iterations rounds sim_per_round ep2 bs2 : ℕ)
    (hep : 1 ≤ epochs) (hit : 1 ≤ iterations) (hrd : 1 ≤ rounds) :
    forwardInference tr n_sim = .error (.simulationError simulationMsg) ∧
    trainStep tr batch_size none = .error (.simulationError simulationMsg) ∧
    trainOnline tr epochs iterations batch_size =
      .error (.simulationError simulationMsg) ∧
    trainRounds tr rounds sim_per_round ep2 bs2 =
      .error (.simulationError simulationMsg) := by
  have hfwd : ∀ n, forwardInference tr n = .error (.simulationError simulationMsg) := by
    intro n
    simp [forwardInference, hgm]
  have hstep : trainStep tr batch_size none = .error (.simulationError simulationMsg) := by
    unfold trainStep
    rw [hfwd batch_size]
    rfl
  refine ⟨hfwd n_sim, hstep, ?_, ?_⟩
  · unfold trainOnline
    apply mapM_error_of_all
    · have : 1 ≤ epochs * iterations := Nat.one_le_iff_ne_zero.mpr (by positivity)
      simp only [ne_eq, List.range_eq_nil]
      omega
    · intro x hx
      exact hstep
  · obtain ⟨r, rfl⟩ : ∃ r, rounds = r + 1 := ⟨rounds - 1, by omega⟩
    unfold trainRounds
    rw [hfwd sim_per_round]
    rfl

theorem forward_inference_without_model_raises_witness :
    exampleTrainerNoModel.generative_model = none ∧
    (forwardInference exampleTrainerNoModel 4 =
      .error (.simulationError simulationMsg) ∧
    trainStep exampleTrainerNoModel 4 none =
      .error (.simulationError simulationMsg) ∧
    trainOnline exampleTrainerNoModel 1 1 4 =
      .error (.simulationError simulationMsg) ∧
    trainRounds exampleTrainerNoModel 1 4 1 4 =
      .error (.simulationError simulationMsg)) :=
  ⟨rfl, forward_inference_without_model_raises exampleTrainerNoModel rfl
    4 4 1 1 1 4 1 4 (by decide) (by decide) (by decide)⟩

/-- Claim C4: trainer construction fails with `NotImplementedError` when the
configurator argument is a string outside the supported set, and when the
configurator argument is `None` or a string while the amortizer is of none of
the three recognized types; in both cases the error surfaces from
`mkTrainer`, before any trainer exists. -/
theorem trainer_init_configurator_errors {α β : Type}
    (defaults : AmortizerKind → TransformChoice → (SimDict α → Except String β))
    (am : Amortizer β) (gm : Option (ℕ → Except String (SimDict α)))
    (cfg : ConfigArg α β) (skip_checks : Bool) :
    (∀ s, cfg = ConfigArg.strArg s → s ∉ STRING_CONFIGS →
      isNotImplementedErr (mkTrainer am gm cfg defaults skip_checks) = true) ∧
    ((cfg = ConfigArg.noneArg ∨ ∃ s, cfg = ConfigArg.strArg s) →
      am.kind = AmortizerKind.unknownKind →
      isNotImplementedErr (mkTrainer am gm cfg defaults skip_checks) = true) := by
  constructor
  · rintro s rfl hs
    simp only [STRING_CONFIGS, List.mem_cons, List.not_mem_nil, or_false,
      not_or] at hs
    obtain ⟨h1, h2, h3, h4⟩ := hs
    by_cases hk : am.kind = AmortizerKind.unknownKind
    · simp only [mkTrainer, manageConfigurator, hk, if_true, reduceIte]
      rfl
    · simp only [mkTrainer, manageConfigurator, hk, h1, h2, h3, h4, reduceIte]
      rfl
  · rintro (rfl | ⟨s, rfl⟩) hk
    · simp only [mkTrainer, manageConfigurator, hk, reduceIte]
      rfl
    · simp only [mkTrainer, manageConfigurator, hk, reduceIte]
      rfl

theorem trainer_init_configurator_errors_witness :
    ("bogus" ∉ STRING_CONFIGS) ∧
    isNotImplementedErr (mkTrainer (α := ℕ) (β := ℕ)
      ⟨.amortizedPosterior, fun _ => .ok 0⟩ none (ConfigArg.strArg "bogus")
      (fun _ _ => fun _ => .ok 0) true) = true ∧
    isNotImplementedErr (mkTrainer (α := ℕ) (β := ℕ)
      ⟨.unknownKind, fun _ => .ok 0⟩ none ConfigArg.noneArg
      (fun _ _ => fun _ => .ok 0) false) = true :=
  ⟨by decide,
    (trainer_init_configurator_errors (fun _ _ => fun _ => .ok 0)
      ⟨.amortizedPosterior, fun _ => .ok 0⟩ none (ConfigArg.strArg "bogus") true).1
      "bogus" rfl (by decide),
    (trainer_init_configurator_errors (fun _ _ => fun _ => .ok 0)
      ⟨.unknownKind, fun _ => .ok 0⟩ none ConfigArg.noneArg false).2
      (Or.inl rfl) rfl⟩

/-- Claim C5: when the trainer is constructed with a generative model and
`skip_checks` disabled, and the consistency pipeline
`generative_model -> configurator -> amortizer -> loss` fails with some
error, construction fails with a `ConfigurationError` whose message is the
context text followed by the original error text. -/
theorem consistency_check_wraps_errors {α β : Type} (am : Amortizer β)
    (g : ℕ → Except String (SimDict α)) (cfg : ConfigArg α β)
    (defaults : AmortizerKind → TransformChoice → (SimDict α → Except String β))
    (conf : SimDict α → Except String β) (err : String)
    (hconf : manageConfigurator defaults am.kind cfg = .ok conf)
    (herr : (do
      let d ← g 2
      let inp ← conf d
      let _ ← am.computeLoss inp
      pure () : Except String Unit) = .error err) :
    mkTrainer am (some g) cfg defaults false =
      .error (.configurationError (consistencyContext ++ err)) := by
  have hcc : checkConsistency (some g) conf am.computeLoss =
      .error (.configurationError (consistencyContext ++ err)) := by
    show (match (do
      let d ← g 2
      let inp ← conf d
      let _ ← am.computeLoss inp
      pure () : Except String Unit) with
      | .ok _ => (.ok () : Except TrainerError Unit)
      | .error e => .error (.configurationError (consistencyContext ++ e))) =
      .error (.configurationError (consistencyContext ++ err))
    rw [herr]
  unfold mkTrainer
  rw [hconf]
  show (do
    let _ ← checkConsistency (some g) conf am.computeLoss
    pure (⟨am, some g, conf⟩ : TrainerState α β) : Except TrainerError (TrainerState α β)) =
    .error (.configurationError (consistencyContext ++ err))
  rw [hcc]
  rfl

theorem consistency_check_wraps_errors_witness :
    mkTrainer (α := ℕ) (β := ℕ) ⟨.amortizedPosterior, fun _ => .ok 0⟩
      (some (fun _ => .error "simulator crashed"))
      (ConfigArg.callableArg (fun _ => .ok 0)) (fun _ _ => fun _ => .ok 0) false =
      .error (.configurationError (consistencyContext ++ "simulator crashed")) :=
  consistency_check_wraps_errors ⟨.amortizedPosterior, fun _ => .ok 0⟩
    (fun _ => .error "simulator crashed") (ConfigArg.callableArg (fun _ => .ok 0))
    (fun _ _ => fun _ => .ok 0) (fun _ => .ok 0) "simulator crashed" rfl rfl

lemma trainStep_some_ne_simulation {α β : Type} (tr : TrainerState α β)
    (batch_size : ℕ) (b : SimDict α) (m : String) :
    trainStep tr batch_size (some b) ≠ .error (.simulationError m) := by
  intro hc
  unfold trainStep at hc
  simp only [Except.mapError, Bind.bind, Except.bind, pure, Except.pure] at hc
  cases h1 : tr.configurator b with
  | error e => simp [h1] at hc
  | ok v =>
    cases h2 : tr.amortizer.computeLoss v with
    | error e => simp [h1, h2] at hc
    | ok q => simp [h1, h2] at hc

lemma mapM_ne_error_of_all {γ δ : Type} (l : List γ)
    (f : γ → Except TrainerError δ) (E : TrainerError)
    (h : ∀ x ∈ l, f x ≠ .error E) : l.mapM f ≠ .error E := by
  induction l with
  | nil =>
    rw [List.mapM_nil]
    exact fun hcontra => Except.noConfusion hcontra
  | cons a l ih =>
    rw [List.mapM_cons]
    cases ha : f a with
    | error e =>
      intro hcontra
      have h2 : (Except.error e : Except TrainerError (List δ)) = .error E := hcontra
      injection h2 with h3
      subst h3
      exact h a (List.mem_cons_self _ _) ha
    | ok v =>
      intro hcontra
      have h2 : (do
        let xs ← l.mapM f
        pure (v :: xs) : Except TrainerError (List δ)) = .error E := hcontra
      cases hm : l.mapM f with
      | error e =>
        rw [hm] at h2
        have h3 : (Except.error e : Except TrainerError (List δ)) = .error E := h2
        injection h3 with h4
        subst h4
        exact ih (fun x hx => h x (List.mem_cons_of_mem _ hx)) hm
      | ok vs =>
        rw [hm] at h2
        have h3 : (Except.ok (v :: vs) : Except TrainerError (List δ)) = .error E := h2
        exact Except.noConfusion h3

/-- Claim C9: offline training never touches the generative model.  For every
simulations dictionary, `train_offline` never raises `SimulationError`, and
its outcome is identical to the outcome on the same trainer with the
generative model removed, because `_train_step` skips simulation whenever a
forward dictionary is supplied. -/
theorem train_offline_never_simulates {α β : Type} (tr : TrainerState α β)
    (simulations_dict : SimDict α) (epochs batch_size : ℕ) :
    (∀ m, trainOffline tr simulations_dict epochs batch_size ≠
      .error (.simulationError m)) ∧
    trainOffline tr simulations_dict epochs batch_size =
      trainOffline ⟨tr.amortizer, none, tr.configurator⟩
        simulations_dict epochs batch_size := by
  constructor
  · intro m
    apply mapM_ne_error_of_all
    intro b hb
    exact trainStep_some_ne_simulation tr batch_size b m
  · rfl

lemma lookup_eq_of_mem_nodup {α : Type} (d : SimDict α)
    (hnodup : (d.map Prod.fst).Nodup) (k : String) (v : Option (List α))
    (hmem : (k, v) ∈ d) : d.lookup k = some v := by
  induction d with
  | nil => simp at hmem
  | cons kv rest ih =>
    obtain ⟨k0, v0⟩ := kv
    simp only [List.map_cons, List.nodup_cons] at hnodup
    rcases List.mem_cons.mp hmem with heq | hmem2
    · cases heq
      simp [List.lookup]
    · have hk : k ∈ rest.map Prod.fst := List.mem_map_of_mem Prod.fst hmem2
      have hne : k ≠ k0 := fun h => hnodup.1 (h ▸ hk)
      simp only [List.lookup]
      rw [show (k == k0) = false from beq_eq_false_iff_ne.mpr hne]
      exact ih hnodup.2 hmem2

lemma lookup_map_joined {α : Type} (d : SimDict α) (f : String → List α)
    (k : String) :
    (d.map (fun kv => (kv.1, kv.2.map (fun _ => f kv.1)))).lookup k =
      (d.lookup k).map (fun v => v.map (fun _ => f k)) := by
  induction d with
  | nil => rfl
  | cons kv rest ih =>
    obtain ⟨k0, v0⟩ := kv
    simp only [List.map_cons, List.lookup]
    cases hbeq : k == k0 with
    | false => exact ih
    | true =>
      obtain rfl := eq_of_beq hbeq
      rfl

lemma concatRound_lookup_none {α : Type} (old new d2 : SimDict α)
    (h : concatRound old new = some d2) (k : String)
    (hk : old.lookup k = some none) : d2.lookup k = some none := by
  induction old generalizing d2 with
  | nil => simp [List.lookup] at hk
  | cons kv rest ih =>
    obtain ⟨k0, v0⟩ := kv
    cases v0 with
    | none =>
      simp only [concatRound] at h
      cases hrest : concatRound rest new with
      | none => rw [hrest] at h; simp at h
      | some dr =>
        rw [hrest] at h
        simp only [Option.map_some'] at h
        injection h with h2
        subst h2
        simp only [List.lookup] at hk ⊢
        cases hbeq : k == k0 with
        | true => rfl
        | false =>
          rw [hbeq] at hk
          exact ih dr hrest hk
    | some l0 =>
      simp only [concatRound] at h
      cases hnew : new.lookup k0 with
      | none => rw [hnew] at h; simp at h
      | some v1 =>
        cases v1 with
        | none => rw [hnew] at h; simp at h
        | some l2 =>
          rw [hnew] at h
          cases hrest : concatRound rest new with
          | none => rw [hrest] at h; simp at h
          | some dr =>
            rw [hrest] at h
            simp only [Option.map_some'] at h
            injection h with h2
            subst h2
            simp only [List.lookup] at hk ⊢
            cases hbeq : k == k0 with
            | true =>
              rw [hbeq] at hk
              simp at hk
            | false =>
              rw [hbeq] at hk
              exact ih dr hrest hk

lemma concatRound_lookup_some {α : Type} (old new d2 : SimDict α)
    (h : concatRound old new = some d2) (k : String) (l : List α)
    (hk : old.lookup k = some (some l)) :
    d2.lookup k = some (some (l ++ lookupArr new k)) := by
  induction old generalizing d2 with
  | nil => simp [List.lookup] at hk
  | cons kv rest ih =>
    obtain ⟨k0, v0⟩ := kv
    cases v0 with
    | none =>
      simp only [concatRound] at h
      cases hrest : concatRound rest new with
      | none => rw [hrest] at h; simp at h
      | some dr =>
        rw [hrest] at h
        simp only [Option.map_some'] at h
        injection h with h2
        subst h2
        simp only [List.lookup] at hk ⊢
        cases hbeq : k == k0 with
        | true =>
          rw [hbeq] at hk
          simp at hk
        | false =>
          rw [hbeq] at hk
          exact ih dr hrest hk
    | some l0 =>
      simp only [concatRound] at h
      cases hnew : new.lookup k0 with
      | none => rw [hnew] at h; simp at h
      | some v1 =>
        cases v1 with
        | none => rw [hnew] at h; simp at h
        | some l2 =>
          rw [hnew] at h
          cases hrest : concatRound rest new with
          | none => rw [hrest] at h; simp at h
          | some dr =>
            rw [hrest] at h
            simp only [Option.map_some'] at h
            injection h with h2
            subst h2
            simp only [List.lookup] at hk ⊢
            cases hbeq : k == k0 with
            | false =>
              rw [hbeq] at hk
              exact ih dr hrest hk
            | true =>
              rw [hbeq] at hk
              obtain rfl := eq_of_beq hbeq
              have hl : l0 = l := by simpa using hk
              subst hl
              have harr : lookupArr new k = l2 := by
                unfold lookupArr
                rw [hnew]
              rw [harr]

lemma joinedBatches_succ {α : Type} (gm : ℕ → SimDict α) (r : ℕ) (k : String) :
    joinedBatches gm (r + 1) k = joinedBatches gm r k ++ batchOf gm (r + 1) k := by
  unfold joinedBatches
  rw [List.range_succ, List.map_append, List.flatten_append]
  simp

lemma stable_lookup_some_some {α : Type} {gm : ℕ → SimDict α}
    (hst : StableKeys gm) {k : String} {l0 : List α}
    (h0 : (gm 0).lookup k = some (some l0)) (r : ℕ) :
    ∃ l, (gm r).lookup k = some (some l) := by
  obtain ⟨hsome, hnone⟩ := hst r k
  have hs : ((gm r).lookup k).isSome = true := by rw [hsome, h0]; rfl
  obtain ⟨v, hv⟩ := Option.isSome_iff_exists.mp hs
  cases v with
  | none =>
    exfalso
    have h2 := hnone.mp hv
    rw [h0] at h2
    simp at h2
  | some l => exact ⟨l, hv⟩

lemma concatRound_mapped {α : Type} (gm : ℕ → SimDict α) (hst : StableKeys gm)
    (hnodup : ((gm 0).map Prod.fst).Nodup) (r : ℕ)
    (l : List (String × Option (List α))) (hl : ∀ kv ∈ l, kv ∈ gm 0) :
    concatRound
      (l.map (fun kv => (kv.1, kv.2.map (fun _ => joinedBatches gm r kv.1))))
      (gm (r + 1)) =
      some (l.map (fun kv => (kv.1, kv.2.map (fun _ => joinedBatches gm (r + 1) kv.1)))) := by
  induction l with
  | nil => rfl
  | cons kv rest ih =>
    obtain ⟨k0, v0⟩ := kv
    have hrest := ih (fun kv hkv => hl kv (List.mem_cons_of_mem _ hkv))
    cases v0 with
    | none =>
      simp only [List.map_cons, Option.map_none']
      simp only [concatRound, hrest, Option.map_some']
    | some l0 =>
      have hmem : (k0, some l0) ∈ gm 0 := hl _ (List.mem_cons_self _ _)
      have h0 : (gm 0).lookup k0 = some (some l0) :=
        lookup_eq_of_mem_nodup _ hnodup _ _ hmem
      obtain ⟨l2, hl2⟩ := stable_lookup_some_some hst h0 (r + 1)
      simp only [List.map_cons, Option.map_some']
      simp only [concatRound, hl2, hrest, Option.map_some']
      have harr : batchOf gm (r + 1) k0 = l2 := by
        unfold batchOf lookupArr
        rw [hl2]
      rw [joinedBatches_succ, harr]

lemma accumDict_eq_dictAt {α : Type} (gm : ℕ → SimDict α) (hst : StableKeys gm)
    (hnodup : ((gm 0).map Prod.fst).Nodup) (r : ℕ) :
    accumDict gm r = some (dictAt gm r) := by
  induction r with
  | zero =>
    show some (gm 0) = some (dictAt gm 0)
    congr 1
    unfold dictAt
    conv_lhs => rw [← List.map_id (gm 0)]
    apply List.map_congr_left
    intro kv hkv
    obtain ⟨k0, v0⟩ := kv
    cases v0 with
    | none => rfl
    | some l0 =>
      have h0 : (gm 0).lookup k0 = some (some l0) :=
        lookup_eq_of_mem_nodup _ hnodup _ _ hkv
      have hj : joinedBatches gm 0 k0 = l0 := by
        unfold joinedBatches
        rw [show List.range 1 = [0] from rfl]
        simp [batchOf, lookupArr, h0]
      simp [hj]
  | succ r ih =>
    show (accumDict gm r).bind _ = _
    rw [ih]
    show concatRound (dictAt gm r) (gm (r + 1)) = some (dictAt gm (r + 1))
    unfold dictAt
    exact concatRound_mapped gm hst hnodup r (gm 0) (fun kv h => h)

lemma joinedBatches_length {α : Type} (gm : ℕ → SimDict α)
    (hst : StableKeys gm) (S : ℕ)
    (hlen : ∀ r k l, (gm r).lookup k = some (some l) → l.length = S)
    (k : String) (l0 : List α) (h0 : (gm 0).lookup k = some (some l0)) (r : ℕ) :
    (joinedBatches gm r k).length = (r + 1) * S := by
  induction r with
  | zero =>
    have hj : joinedBatches gm 0 k = batchOf gm 0 k := by
      unfold joinedBatches
      rw [show List.range 1 = [0] from rfl]
      simp
    rw [hj]
    have harr : batchOf gm 0 k = l0 := by
      unfold batchOf lookupArr
      rw [h0]
    rw [harr, hlen 0 k l0 h0, Nat.one_mul]
  | succ r ih =>
    rw [joinedBatches_succ, List.length_append, ih]
    obtain ⟨l2, hl2⟩ := stable_lookup_some_some hst h0 (r + 1)
    have harr : batchOf gm (r + 1) k = l2 := by
      unfold batchOf lookupArr
      rw [hl2]
    rw [harr, hlen (r + 1) k l2 hl2]
    ring

/-- Claim C6: in round-based training with per-round size `S` and `R` rounds
(generative-model calls yielding stable keys, a stable `None` pattern, and
`S` samples per present key), the dataset grows monotonically: the
dictionary trained on in (0-indexed) round `r` is exactly the initial
dictionary with every present entry replaced by the concatenation of the
`r + 1` batches simulated so far, so each present entry holds `(r + 1) * S`
samples; `train_offline` receives exactly one dictionary per round. -/
theorem train_rounds_dataset_grows {α : Type} (gm : ℕ → SimDict α) (S R : ℕ)
    (hnodup : ((gm 0).map Prod.fst).Nodup) (hst : StableKeys gm)
    (hlen : ∀ r k l, (gm r).lookup k = some (some l) → l.length = S) :
    (trainRoundsCalls gm R).length = R ∧
    ∀ r, r < R →
      accumDict gm r = some (dictAt gm r) ∧
      (trainRoundsCalls gm R).getD r none = some (dictAt gm r) ∧
      ∀ k l0, (gm 0).lookup k = some (some l0) →
        (dictAt gm r).lookup k = some (some (joinedBatches gm r k)) ∧
        (joinedBatches gm r k).length = (r + 1) * S := by
  refine ⟨by simp [trainRoundsCalls], ?_⟩
  intro r hr
  refine ⟨accumDict_eq_dictAt gm hst hnodup r, ?_, ?_⟩
  · unfold trainRoundsCalls
    rw [List.getD_eq_getElem _ _ (by simpa using hr)]
    simp only [List.getElem_map, List.getElem_range]
    exact accumDict_eq_dictAt gm hst hnodup r
  · intro k l0 h0
    constructor
    · unfold dictAt
      rw [lookup_map_joined, h0]
      rfl
    · exact joinedBatches_length gm hst S hlen k l0 h0 r

/-- Claim C10: in round-based training, a key that holds `None` in the first
simulated dictionary keeps `None` in the dictionary of every round (new
simulations for that key are discarded), while a key holding an array is
only ever extended: the next accumulated dictionary holds the old array with
the newly simulated array appended. -/
theorem train_rounds_none_keys_preserved {α : Type} (gm : ℕ → SimDict α)
    (r : ℕ) (k : String) :
    (∀ d, accumDict gm r = some d → (gm 0).lookup k = some none →
      d.lookup k = some none) ∧
    (∀ d d2 l, accumDict gm r = some d → accumDict gm (r + 1) = some d2 →
      d.lookup k = some (some l) →
      d2.lookup k = some (some (l ++ lookupArr (gm (r + 1)) k))) := by
  constructor
  · induction r with
    | zero =>
      intro d hd h0
      have h2 : some (gm 0) = some d := hd
      injection h2 with h3
      subst h3
      exact h0
    | succ r ih =>
      intro d hd h0
      cases hacc : accumDict gm r with
      | none =>
        exfalso
        have h2 : (accumDict gm r).bind (fun d => concatRound d (gm (r + 1))) =
            some d := hd
        rw [hacc] at h2
        simp at h2
      | some d1 =>
        have h2 : (accumDict gm r).bind (fun d => concatRound d (gm (r + 1))) =
            some d := hd
        rw [hacc] at h2
        simp only [Option.some_bind] at h2
        exact concatRound_lookup_none d1 (gm (r + 1)) d h2 k (ih d1 hacc h0)
  · intro d d2 l hd hd2 hl
    have h2 : (accumDict gm r).bind (fun d => concatRound d (gm (r + 1))) =
        some d2 := hd2
    rw [hd] at h2
    simp only [Option.some_bind] at h2
    exact concatRound_lookup_some d (gm (r + 1)) d2 h2 k l hl

lemma exampleStream_lookup (r : ℕ) (k : String) :
    (exampleStream r).lookup k =
      if k = "a" then some (some [r]) else if k = "b" then some none else none := by
  by_cases h1 : k = "a"
  · subst h1
    rfl
  · by_cases h2 : k = "b"
    · subst h2
      rfl
    · have hb1 : (k == "a") = false := beq_eq_false_iff_ne.mpr h1
      have hb2 : (k == "b") = false := beq_eq_false_iff_ne.mpr h2
      simp [exampleStream, List.lookup, hb1, hb2, h1, h2]

lemma exampleStream_stable : StableKeys exampleStream := by
  intro r k
  by_cases h1 : k = "a"
  · subst h1
    constructor <;> simp [exampleStream_lookup]
  · by_cases h2 : k = "b"
    · subst h2
      constructor <;> simp [exampleStream_lookup]
    · constructor <;> simp [exampleStream_lookup, h1, h2]

lemma exampleStream_batch_sizes :
    ∀ r k l, (exampleStream r).lookup k = some (some l) → l.length = 1 := by
  intro r k l h
  rw [exampleStream_lookup] at h
  by_cases h1 : k = "a"
  · simp [h1] at h
    simp [← h]
  · by_cases h2 : k = "b" <;> simp [h1, h2] at h

theorem train_rounds_dataset_grows_witness :
    (trainRoundsCalls exampleStream 2).length = 2 ∧
    accumDict exampleStream 1 = some (dictAt exampleStream 1) ∧
    (trainRoundsCalls exampleStream 2).getD 1 none =
      some (dictAt exampleStream 1) ∧
    (dictAt exampleStream 1).lookup "a" =
      some (some (joinedBatches exampleStream 1 "a")) ∧
    (joinedBatches exampleStream 1 "a").length = (1 + 1) * 1 := by
  have h := train_rounds_dataset_grows exampleStream 1 2 (by decide)
    exampleStream_stable exampleStream_batch_sizes
  obtain ⟨hL, hr⟩ := h
  obtain ⟨h1, h2, h3⟩ := hr 1 (by norm_num)
  obtain ⟨h4, h5⟩ := h3 "a" [0] (by decide)
  exact ⟨hL, h1, h2, h4, h5⟩

theorem train_rounds_none_keys_preserved_witness :
    exampleDict1.lookup "b" = some none ∧
    exampleDict1.lookup "a" =
      some (some ([0] ++ lookupArr (exampleStream 1) "a")) := by
  have hthm1 := train_rounds_none_keys_preserved exampleStream 1 "b"
  have hthm2 := train_rounds_none_keys_preserved exampleStream 0 "a"
  have h0 : accumDict exampleStream 0 = some [("a", some [0]), ("b", none)] := by
    decide
  have h1 : accumDict exampleStream 1 = some exampleDict1 := by decide
  refine ⟨hthm1.1 exampleDict1 h1 (by decide), ?_⟩
  exact hthm2.2 [("a", some [0]), ("b", none)] exampleDict1 [0] h0 h1 (by decide)

end BayesFlow
